import Mathlib

/-!
# Verification of the `transaction` package of arnhemcr/financial

This file gives a shallow embedding, in Lean 4, of the core of the
`transaction` Go package of arnhemcr/financial: the `Transaction`
entity and its validator, the amount parser (`parseAmount` and its
helpers), the CSV record-format descriptor (`CSVRecordFormat`) and its
validator, the CSV transcoder (`ParseCSV` / `StringModuleCSV`), the
date normalizer (`ParseDate`), and the Ledger journal-entry transcoder
(`ParseLedger` / `StringLedger`).  Theorems about the claims of the
specification follow the definitions.

Modelling conventions:

* Go `float64` amounts are modelled as exact decimal rationals (`ℚ`).
  The program performs no arithmetic on amounts beyond negation and
  comparison with zero, which are exact in binary64, and every binary64
  value is an exact decimal rational, so the decimal-rational model is
  faithful on the program's paths.  `strconv.FormatFloat(v, 'f', -1, 64)`
  (shortest decimal that round-trips) is modelled by exact shortest
  decimal rendering, and `strconv.ParseFloat` by an exact decimal
  parser; the Go guarantee `ParseFloat(FormatFloat v) = v` corresponds
  to the round-trip theorem proved here for rationals with a power-of-ten
  denominator.  Non-decimal inputs of `ParseFloat` (hex floats, "inf",
  "NaN", underscore separators) and binary64 range errors are outside
  the model.
* Go mutation of the receiver `*Transaction` is modelled by explicit
  state passing: a method that mutates `t` and returns `error` becomes
  a function `Transaction → ... → Transaction × Option Err`, returning
  the updated transaction exactly as the Go code leaves it, also on the
  error paths (for example `t.Date, err = ParseDate(...)` clears
  `t.Date` when the parse fails, and the model does the same).
* Go sentinel error values become constructors of the inductive `Err`.
* `uint8` indices are modelled as `Nat`; the code performs no
  arithmetic on them, only comparisons, so no overflow can occur.
* `time.Parse` is modelled by a layout-driven scanner covering the
  numeric layout tokens of the Go reference time plus literal bytes
  ("2006", "06", "01".."05", "15", "1".."5", "_2"); named tokens such
  as "Jan" behave as literals, which coincides with Go on the self-parse
  used by the descriptor validator and on the all-numeric layouts used
  by this repository.
-/

deriving instance DecidableEq for Except

/-- The sentinel error values of the `transaction` package
(`errors.New` package-level variables), as one closed enumeration. -/
inductive Err where
  | errAmount          -- "amount cannot be zero"
  | errCreditDebit     -- "credit and debit cannot both be empty string or both non-empty string"
  | errPositiveNumber  -- "number must be positive"
  | errNumberSyntax    -- wrapped strconv.ParseFloat failure ("cannot parse number: ...")
  | errMemo            -- "memo cannot be empty string"
  | errNFields         -- "unexpected number of fields in CSV record"
  | errThisAccount     -- "this account cannot be empty string or \"Imbalance\""
  | errParseDate       -- wrapped time.Parse failure ("parsedate: ...")
  | errStartNumber     -- "trn.parseledger: line must start with number"
  | errAccounts        -- "this account cannot be the same as other account"
  | errOtherAccount    -- "other account cannot be empty string"
  | errAmountOption    -- "amount field index, or credit and debit indexes ... cannot both be zero"
  | errDateI           -- "date field index in CSV record format cannot be zero"
  | errDateLayout      -- "date layout in CSV record format must be Go style ..."
  | errIndexUnique     -- "field indexes in CSV record format cannot share a non-zero value"
  | errIndexRange      -- "field index in CSV record format is out of range"
  | errMemoI           -- "memo field index in CSV record format cannot be zero"
  | errNFieldsRange    -- "number of fields in CSV record format is out of range"
deriving DecidableEq, Repr

/-- The canonical transaction entity (`type Transaction struct`).
`Amount` is `float64` in Go, modelled as an exact decimal rational. -/
structure Transaction where
  Amount : ℚ
  Code : String
  Currency : String
  Date : String
  Memo : String
  OtherAccount : String
  ThisAccount : String
deriving DecidableEq, Repr

/-- Constant `DefaultOtherAccount = "Imbalance"`. -/
def DefaultOtherAccount : String := "Imbalance"

/-- The Go zero value of `Transaction` (`var trn Transaction`). -/
def emptyTransaction : Transaction := ⟨0, "", "", "", "", "", ""⟩

/-- The CSV record-format descriptor (`type CSVRecordFormat struct`).
Indices are 1-based column positions; `0` means the role is absent.
`AmountPuncts` is the punctuation-stripping configuration consumed by
`parseAmount` (`crf.AmountPuncts`); the zero value is the empty string. -/
structure CSVRecordFormat where
  NFields : Nat
  AmountI : Nat
  CreditI : Nat
  DebitI : Nat
  CurrencyI : Nat
  CodeI : Nat
  DateI : Nat
  MemoI : Nat
  OtherAccountI : Nat
  ThisAccountI : Nat
  DateLayout : String
  AmountPuncts : String
deriving DecidableEq, Repr

/-- Function `GetModuleCSVFormat` returns this module's CSV record format. -/
def GetModuleCSVFormat : CSVRecordFormat :=
  { NFields := 7
    DateI := 1
    ThisAccountI := 2
    OtherAccountI := 3
    CodeI := 4
    MemoI := 5
    AmountI := 6
    CurrencyI := 7
    DateLayout := "2006-01-02"
    CreditI := 0
    DebitI := 0
    AmountPuncts := "" }

/-! ## Digit strings -/

/-- The value of a decimal digit character. -/
def digitVal (c : Char) : Nat := c.toNat - 48

/-- The character of a decimal digit below 10. -/
def digitChar (d : Nat) : Char := Char.ofNat (48 + d)

/-- The numeric value of a big-endian list of decimal digit characters. -/
def digitsVal : List Char → Nat
  | [] => 0
  | c :: cs => digitVal c * 10 ^ cs.length + digitsVal cs

/-- Fuelled decimal rendering of a natural number, most significant
digit first (helper for `natDigits`). -/
def natDigitsAux : Nat → Nat → List Char
  | 0, _ => []
  | fuel + 1, n =>
    if n < 10 then [digitChar n]
    else natDigitsAux fuel (n / 10) ++ [digitChar (n % 10)]

/-- Decimal rendering of a natural number, as digit characters. -/
def natDigits (n : Nat) : List Char := natDigitsAux (n + 1) n

/-- Zero-padded decimal rendering of `n` in exactly `k` digits
(for `n < 10 ^ k`); models the `%02d` / `%04d` renderings of Go. -/
def padDigits : Nat → Nat → List Char
  | 0, _ => []
  | k + 1, n => digitChar (n / 10 ^ k) :: padDigits k (n % 10 ^ k)

/-- An ASCII decimal digit (the Latin-1 range of Go `unicode.IsDigit`
and the digit class of `strconv`). -/
def isDigitCh (c : Char) : Bool := 48 ≤ c.toNat && c.toNat ≤ 57

/-- Longest all-digit prefix of a character list, and the rest. -/
def spanDigits : List Char → List Char × List Char
  | [] => ([], [])
  | c :: cs =>
    if isDigitCh c then
      let (ds, rest) := spanDigits cs
      (c :: ds, rest)
    else ([], c :: cs)

/-! ## The amount parser (`amount.go`) -/

/-- Function `depunctAmount` removes any punctuation bytes from an amount so it
can be parsed as a value (`strings.IndexByte` membership test). -/
def depunctAmount (amount puncts : String) : String :=
  if puncts = "" then amount
  else String.mk (amount.data.filter (fun b => ¬ puncts.data.contains b))

/-- Decimal core of `strconv.ParseFloat`: optional sign, digits with an
optional decimal point (at least one digit overall), and an optional
decimal exponent.  Returns the exact rational value. -/
def parseFloatAfterSign (neg : Bool) (cs : List Char) : Option ℚ :=
  let p1 := spanDigits cs
  let ip := p1.1
  let s2 : List Char × List Char :=
    match p1.2 with
    | [] => ([], [])
    | c :: rest => if c = '.' then spanDigits rest else ([], c :: rest)
  let fp := s2.1
  let r2 := s2.2
  if ip = [] ∧ fp = [] then none
  else
    let mant : Int := (if neg then -1 else 1) * (digitsVal (ip ++ fp) : Int)
    let fl := fp.length
    match r2 with
    | [] => some (mkRat mant (10 ^ fl))
    | e :: rest =>
      if e = 'e' ∨ e = 'E' then
        let s3 : Bool × List Char :=
          match rest with
          | [] => (false, [])
          | c :: r =>
            if c = '-' then (true, r)
            else if c = '+' then (false, r)
            else (false, c :: r)
        let p3 := spanDigits s3.2
        if p3.1 = [] ∨ p3.2 ≠ [] then none
        else if s3.1 then some (mkRat mant (10 ^ (fl + digitsVal p3.1)))
        else some (mkRat (mant * (10 : Int) ^ digitsVal p3.1) (10 ^ fl))
      else none

/-- Sign handling of the decimal core of `strconv.ParseFloat`. -/
def parseFloatCh (cs : List Char) : Option ℚ :=
  match cs with
  | [] => parseFloatAfterSign false []
  | c :: rest =>
    if c = '-' then parseFloatAfterSign true rest
    else if c = '+' then parseFloatAfterSign false rest
    else parseFloatAfterSign false (c :: rest)

/-- Function `parseFloat` returns the floating-point number parsed from the
string (`strconv.ParseFloat(s, 64)`, wrapped error on failure). -/
def parseFloat (s : String) : Except Err ℚ :=
  match parseFloatCh s.data with
  | some q => .ok q
  | none => .error .errNumberSyntax

/-- Function `parsePositiveFloat` returns the positive floating-point number
parsed from the string (`n <= 0` fails with `errPositiveNumber`). -/
def parsePositiveFloat (s : String) : Except Err ℚ :=
  match parseFloat s with
  | .error e => .error e
  | .ok n => if n ≤ 0 then .error .errPositiveNumber else .ok n

/-- Function `parseAmount` parses the value of a transaction from either the
amount, credit or debit fields of the (already prepended) record
`fields`, under format `crf`.  The value cannot be zero. -/
def parseAmount (fields : List String) (crf : CSVRecordFormat) : Except Err ℚ :=
  let a := fields.getD crf.AmountI ""
  let c := fields.getD crf.CreditI ""
  let d := fields.getD crf.DebitI ""
  let ps := crf.AmountPuncts
  let r : Except Err ℚ :=
    if a ≠ "" then parseFloat (depunctAmount a ps)
    else if c ≠ "" ∧ d = "" then parsePositiveFloat (depunctAmount c ps)
    else if d ≠ "" ∧ c = "" then
      match parsePositiveFloat (depunctAmount d ps) with
      | .error e => .error e
      | .ok v => .ok (-v)
    else .error .errCreditDebit
  match r with
  | .error e => .error e
  | .ok v => if v = 0 then .error .errAmount else .ok v

/-- Function `stringAmount` returns the floating-point number as a string
(`strconv.FormatFloat(n, 'f', -1, 64)`: plain decimal, no exponent,
shortest digits; exact for decimal rationals). -/
def stringAmount (q : ℚ) : String :=
  if q = 0 then "0"
  else
    match (List.range (q.den + 1)).find? (fun k => 10 ^ k % q.den == 0) with
    | none => "0"  -- unreachable for binary64 values: their denominators divide a power of ten
    | some k =>
      let m := q.num.natAbs * 10 ^ k / q.den
      let sgn : List Char := if q.num < 0 then ['-'] else []
      if k = 0 then String.mk (sgn ++ natDigits m)
      else String.mk (sgn ++ natDigits (m / 10 ^ k) ++ '.' :: padDigits k (m % 10 ^ k))

/-! ## Claims C3 and C4: amount resolution -/

/-- A minimal descriptor with only an amount column, used to evaluate
`parseAmount` at concrete inputs. -/
def crfAmountOnly : CSVRecordFormat :=
  { NFields := 1, AmountI := 1, CreditI := 0, DebitI := 0, CurrencyI := 0,
    CodeI := 0, DateI := 0, MemoI := 0, OtherAccountI := 0, ThisAccountI := 0,
    DateLayout := "", AmountPuncts := "" }

/-- A minimal descriptor with amount, credit and debit columns 1, 2, 3,
used to evaluate `parseAmount` at concrete inputs. -/
def crfCreditDebit : CSVRecordFormat :=
  { NFields := 3, AmountI := 1, CreditI := 2, DebitI := 3, CurrencyI := 0,
    CodeI := 0, DateI := 0, MemoI := 0, OtherAccountI := 0, ThisAccountI := 0,
    DateLayout := "", AmountPuncts := "" }

theorem parseFloat_empty : parseFloat "" = .error .errNumberSyntax := by decide

/-- C3: for every strictly positive decimal text `v`, `parseAmount`
with empty amount field and only the debit field set to `v` returns the
negation of the value of `v`; with only the credit field set to `v` it
returns the value of `v`; with credit and debit both non-empty (amount
empty) it fails with the credit/debit-conflict error; with amount,
credit and debit all empty it fails with the credit/debit-conflict
error. -/
theorem C3_amount_sign_law (v : String) (q : ℚ)
    (hv : parseFloat v = .ok q) (hq : 0 < q) :
    (∀ fields crf, fields.getD crf.AmountI "" = "" →
      fields.getD crf.CreditI "" = "" → fields.getD crf.DebitI "" = v →
      crf.AmountPuncts = "" → parseAmount fields crf = .ok (-q)) ∧
    (∀ fields crf, fields.getD crf.AmountI "" = "" →
      fields.getD crf.CreditI "" = v → fields.getD crf.DebitI "" = "" →
      crf.AmountPuncts = "" → parseAmount fields crf = .ok q) ∧
    (∀ fields crf c d, fields.getD crf.AmountI "" = "" →
      fields.getD crf.CreditI "" = c → fields.getD crf.DebitI "" = d →
      c ≠ "" → d ≠ "" → parseAmount fields crf = .error .errCreditDebit) ∧
    (∀ fields crf, fields.getD crf.AmountI "" = "" →
      fields.getD crf.CreditI "" = "" → fields.getD crf.DebitI "" = "" →
      parseAmount fields crf = .error .errCreditDebit) := by
  have hvne : v ≠ "" := by
    intro h
    rw [h, parseFloat_empty] at hv
    exact Except.noConfusion hv
  have hq0 : q ≠ 0 := ne_of_gt hq
  refine ⟨?_, ?_, ?_, ?_⟩
  · intro fields crf h1 h2 h3 h4
    simp only [parseAmount, h1, h2, h3, h4, depunctAmount, if_pos rfl]
    simp only [ne_eq, not_true_eq_false, if_false, hvne, not_false_eq_true,
      and_true, and_false, if_true, parsePositiveFloat, hv]
    rw [if_neg (by simpa using not_le.mpr hq)]
    simp [neg_eq_zero, hq0]
  · intro fields crf h1 h2 h3 h4
    simp only [parseAmount, h1, h2, h3, h4, depunctAmount, if_pos rfl]
    simp only [ne_eq, not_true_eq_false, if_false, hvne, not_false_eq_true,
      and_true, true_and, if_true, parsePositiveFloat, hv]
    rw [if_neg (by simpa using not_le.mpr hq)]
    simp [hq0]
  · intro fields crf c d h1 h2 h3 hc hd
    simp only [parseAmount, h1, h2, h3]
    simp [hc, hd]
  · intro fields crf h1 h2 h3
    simp only [parseAmount, h1, h2, h3]
    simp

/-- Witness for C3 at `v = "1.5"`: the debit-only column yields `-3/2`,
the credit-only column yields `3/2`, both-set and neither-set fail. -/
theorem C3_amount_sign_law_witness :
    parseAmount ["", "", "", "1.5"] crfCreditDebit = .ok (-(mkRat 3 2)) ∧
    parseAmount ["", "", "1.5", ""] crfCreditDebit = .ok (mkRat 3 2) ∧
    parseAmount ["", "", "1.5", "1.5"] crfCreditDebit = .error .errCreditDebit ∧
    parseAmount ["", "", "", ""] crfCreditDebit = .error .errCreditDebit := by
  obtain ⟨h1, h2, h3, h4⟩ := C3_amount_sign_law "1.5" (mkRat 3 2) (by decide) (by decide)
  exact ⟨h1 _ crfCreditDebit (by decide) (by decide) (by decide) rfl,
    h2 _ crfCreditDebit (by decide) (by decide) (by decide) rfl,
    h3 _ crfCreditDebit "1.5" "1.5" (by decide) (by decide) (by decide)
      (by decide) (by decide),
    h4 _ crfCreditDebit (by decide) (by decide) (by decide)⟩

/-- C4 counterexample: the amount text `"0"` is non-empty and parses as
a well-formed decimal denoting zero, yet `parseAmount` does not succeed
with zero: it fails with the zero-amount error. -/
theorem C4_counterexample :
    parseFloat "0" = .ok 0 ∧
    parseAmount ["", "0"] crfAmountOnly = .error .errAmount := by
  constructor
  · decide
  · decide

/-- C4 amended: when the amount field text is non-empty and parses as a
well-formed signed decimal denoting zero, `parseAmount` itself rejects
it with the zero-amount error (zero is rejected at the
amount-resolution stage, in addition to whole-Transaction
validation). -/
theorem C4_zero_rejected_by_parseAmount (fields : List String)
    (crf : CSVRecordFormat) (a : String)
    (ha : fields.getD crf.AmountI "" = a) (hne : a ≠ "")
    (hp : crf.AmountPuncts = "") (hz : parseFloat a = .ok 0) :
    parseAmount fields crf = .error .errAmount := by
  simp only [parseAmount, ha, hp, depunctAmount, if_pos rfl]
  simp [hne, hz]

/-- Witness for the amended C4 at amount text `"0.00"`. -/
theorem C4_zero_rejected_by_parseAmount_witness :
    parseAmount ["", "0.00"] crfAmountOnly = .error .errAmount :=
  C4_zero_rejected_by_parseAmount ["", "0.00"] crfAmountOnly "0.00"
    (by decide) (by decide) rfl (by decide)

/-! ## The date normalizer (`date.go`, over Go `time.Parse`) -/

/-- Constant `time.DateOnly = "2006-01-02"`, the canonical date layout. -/
def timeDateOnly : String := "2006-01-02"

/-- Reads exactly `k` decimal digits (Go `getnum` with `fixed` set):
accumulates onto `acc`, returns the value and the rest. -/
def readFixed : Nat → Nat → List Char → Option (Nat × List Char)
  | 0, acc, cs => some (acc, cs)
  | _ + 1, _, [] => none
  | k + 1, acc, c :: cs =>
    if isDigitCh c then readFixed k (acc * 10 + digitVal c) cs else none

/-- Reads one or two decimal digits (Go `getnum` without `fixed`). -/
def read12 : List Char → Option (Nat × List Char)
  | [] => none
  | c :: cs =>
    if isDigitCh c then
      match cs with
      | d :: rest =>
        if isDigitCh d then some (digitVal c * 10 + digitVal d, rest)
        else some (digitVal c, d :: rest)
      | [] => some (digitVal c, [])
    else none

/-- Layout-driven scan of Go `time.Parse`, restricted to the date
content: walks the layout, recognising the numeric tokens of the
reference time `2006-01-02 15:04:05` ("2006" and "06" for the year,
"01" and "1" for the month, "02", "2" and "_2" for the day, and the
value-irrelevant "03".."05", "15", "3".."5"), treating every other
byte as a literal that the value must repeat.  The accumulator holds
(year, month, day), starting from Go's parse defaults (0, January, 1).
Name tokens ("Jan", "Monday", zone tokens) are treated as literals;
on the self-parse used by the descriptor validator and on all-numeric
layouts this coincides with Go. -/
def goDateScan : List Char → List Char → Nat × Nat × Nat → Option (Nat × Nat × Nat)
  | [], val, acc => if val = [] then some acc else none
  | '2' :: '0' :: '0' :: '6' :: lay, val, (_, m, d) =>
    match readFixed 4 0 val with
    | some (n, rest) => goDateScan lay rest (n, m, d)
    | none => none
  | '0' :: '1' :: lay, val, (y, _, d) =>
    match readFixed 2 0 val with
    | some (n, rest) => goDateScan lay rest (y, n, d)
    | none => none
  | '0' :: '2' :: lay, val, (y, m, _) =>
    match readFixed 2 0 val with
    | some (n, rest) => goDateScan lay rest (y, m, n)
    | none => none
  | '0' :: '3' :: lay, val, acc | '0' :: '4' :: lay, val, acc | '0' :: '5' :: lay, val, acc =>
    match readFixed 2 0 val with
    | some (_, rest) => goDateScan lay rest acc
    | none => none
  | '0' :: '6' :: lay, val, (_, m, d) =>
    match readFixed 2 0 val with
    | some (n, rest) => goDateScan lay rest (if n < 69 then 2000 + n else 1900 + n, m, d)
    | none => none
  | '1' :: '5' :: lay, val, acc =>
    match readFixed 2 0 val with
    | some (_, rest) => goDateScan lay rest acc
    | none => none
  | '1' :: lay, val, (y, _, d) =>
    match read12 val with
    | some (n, rest) => goDateScan lay rest (y, n, d)
    | none => none
  | '2' :: lay, val, (y, m, _) =>
    match read12 val with
    | some (n, rest) => goDateScan lay rest (y, m, n)
    | none => none
  | '3' :: lay, val, acc | '4' :: lay, val, acc | '5' :: lay, val, acc =>
    match read12 val with
    | some (_, rest) => goDateScan lay rest acc
    | none => none
  | '_' :: '2' :: lay, val, (y, m, _) =>
    -- Go `stdUnderDay`: an optional leading space, then one or two digits.
    let val' := match val with
      | ' ' :: rest => rest
      | _ => val
    match read12 val' with
    | some (n, rest) => goDateScan lay rest (y, m, n)
    | none => none
  | c :: lay, val, acc =>
    match val with
    | v :: vs => if v = c then goDateScan lay vs acc else none
    | [] => none

/-- The proleptic-Gregorian leap-year rule used by Go `time`. -/
def isLeapYear (y : Nat) : Bool := y % 4 == 0 && (y % 100 != 0 || y % 400 == 0)

/-- Days in a month, as checked by Go `time.Parse` ("day out of range"). -/
def daysInMonth (y m : Nat) : Nat :=
  if m = 2 then (if isLeapYear y then 29 else 28)
  else if m = 4 ∨ m = 6 ∨ m = 9 ∨ m = 11 then 30 else 31

/-- Go `time.Parse(layout, value)` restricted to the calendar date:
scan, then the range checks of `Parse` (month and day in range). -/
def parseGoDate (val layout : List Char) : Option (Nat × Nat × Nat) :=
  match goDateScan layout val (0, 1, 1) with
  | none => none
  | some (y, m, d) =>
    if 1 ≤ m ∧ m ≤ 12 ∧ 1 ≤ d ∧ d ≤ daysInMonth y m then some (y, m, d) else none

/-- Rendering of a date in the canonical layout
(`Format(time.DateOnly)`, that is `%04d-%02d-%02d`). -/
def formatDateOnly (y m d : Nat) : String :=
  String.mk (padDigits 4 y ++ '-' :: padDigits 2 m ++ '-' :: padDigits 2 d)

/-- Function `ParseDate` returns the date parsed from `s`, according to
the date layout, re-rendered canonically
(`time.Parse` then `Format(time.DateOnly)`; wrapped error on failure). -/
def ParseDate (s layout : String) : Except Err String :=
  match parseGoDate s.data layout.data with
  | some (y, m, d) => .ok (formatDateOnly y m d)
  | none => .error .errParseDate

/-- Function `validateDateOnly` returns `none` if `s` is a date in the
`"2006-01-02"` layout (`time.Parse(time.DateOnly, s)` succeeds). -/
def validateDateOnly (s : String) : Option Err :=
  match parseGoDate s.data timeDateOnly.data with
  | some _ => none
  | none => some .errParseDate

/-- The date-layout self-test of `CSVRecordFormat.Validate`:
`d, _ := time.Parse(layout, layout); d.Format(DateOnly) == DateOnly`,
that is, parsing the layout against itself yields 2006-01-02.
When the parse fails, Go leaves `d` at the zero time (year 1), whose
rendering differs from `time.DateOnly`, so failure means `false`. -/
def checkDateLayout (layout : String) : Bool :=
  match goDateScan layout.data layout.data (0, 1, 1) with
  | some (2006, 1, 2) => true
  | _ => false

/-! ## The CSV record-format validator (`csvrecordformat.go`) -/

/-- The inclusive limits for the number of fields in a CSV record. -/
def minNFields : Nat := 3

/-- The inclusive upper limit for the number of fields in a CSV record. -/
def maxNFields : Nat := 20

/-- The loop of `validateIndexes`: walks the collected index list with
the `inUse` occupancy array (Go `var inUse [maxNFields + 1]bool`),
failing on the first out-of-range or duplicated non-zero index. -/
def validateIndexesLoop (nf : Nat) : List Nat → List Bool → Option Err
  | [], _ => none
  | i :: rest, inUse =>
    if nf < i then some .errIndexRange
    else if i = 0 then validateIndexesLoop nf rest inUse
    else if inUse.getD i false then some .errIndexUnique
    else validateIndexesLoop nf rest (inUse.set i true)

/-- Method `validateIndexes` of `CSVRecordFormat`: checks the eight
collected indexes (the source omits `CurrencyI` from the collection),
then that the required date and memo indexes are non-zero. -/
def CSVRecordFormat.validateIndexes (crf : CSVRecordFormat) : Option Err :=
  match validateIndexesLoop crf.NFields
      [crf.AmountI, crf.CodeI, crf.CreditI, crf.DateI, crf.DebitI,
        crf.MemoI, crf.OtherAccountI, crf.ThisAccountI]
      (List.replicate (maxNFields + 1) false) with
  | some e => some e
  | none =>
    if crf.DateI = 0 then some .errDateI
    else if crf.MemoI = 0 then some .errMemoI
    else none

/-- Method `validateOptions` of `CSVRecordFormat`: either the amount
index, or both the credit and debit indexes, must be non-zero. -/
def CSVRecordFormat.validateOptions (crf : CSVRecordFormat) : Option Err :=
  if crf.AmountI ≠ 0 then none
  else if crf.CreditI ≠ 0 ∧ crf.DebitI ≠ 0 then none
  else some .errAmountOption

/-- Method `Validate` of `CSVRecordFormat`: field count in range, then
`validateIndexes`, then `validateOptions`, then the date-layout
self-test; `none` means the format is valid. -/
def CSVRecordFormat.Validate (crf : CSVRecordFormat) : Option Err :=
  if crf.NFields < minNFields ∨ maxNFields < crf.NFields then some .errNFieldsRange
  else match crf.validateIndexes with
  | some e => some e
  | none =>
    match crf.validateOptions with
    | some e => some e
    | none => if checkDateLayout crf.DateLayout then none else some .errDateLayout

/-! ## Claims C2, C7 and C10: descriptor validation -/

/-- The module CSV format with its currency index moved onto the date
index: two of the nine role indices are equal and non-zero. -/
def crfCurrencyCollision : CSVRecordFormat := { GetModuleCSVFormat with CurrencyI := 1 }

/-- C2, divergence witness: in `crfCurrencyCollision` the currency and
date role indices are equal and non-zero, yet `Validate` accepts the
descriptor (`validateIndexes` never collects `CurrencyI`), instead of
failing with the index-collision error. -/
theorem C2_currency_collision_not_detected :
    crfCurrencyCollision.CurrencyI = crfCurrencyCollision.DateI ∧
    crfCurrencyCollision.CurrencyI ≠ 0 ∧
    CSVRecordFormat.Validate crfCurrencyCollision = none := by
  refine ⟨rfl, by decide, by decide⟩

/-- C7: a descriptor whose date index or memo index is zero always
fails validation, whatever the other fields. -/
theorem C7_mandatory_roles (crf : CSVRecordFormat)
    (h : crf.DateI = 0 ∨ crf.MemoI = 0) :
    CSVRecordFormat.Validate crf ≠ none := by
  have hidx : crf.validateIndexes ≠ none := by
    unfold CSVRecordFormat.validateIndexes
    cases hloop : validateIndexesLoop crf.NFields
        [crf.AmountI, crf.CodeI, crf.CreditI, crf.DateI, crf.DebitI,
          crf.MemoI, crf.OtherAccountI, crf.ThisAccountI]
        (List.replicate (maxNFields + 1) false) with
    | some e => simp
    | none =>
      rcases h with h0 | h0
      · simp [h0]
      · by_cases hd : crf.DateI = 0 <;> simp [h0, hd]
  unfold CSVRecordFormat.Validate
  by_cases hr : crf.NFields < minNFields ∨ maxNFields < crf.NFields
  · simp [hr]
  · rw [if_neg hr]
    cases hidx' : crf.validateIndexes with
    | some e => simp
    | none => exact absurd hidx' hidx

/-- Witness for C7: the module format with its date index zeroed fails
validation. -/
theorem C7_mandatory_roles_witness :
    CSVRecordFormat.Validate { GetModuleCSVFormat with DateI := 0 } ≠ none :=
  C7_mandatory_roles { GetModuleCSVFormat with DateI := 0 } (Or.inl rfl)

/-- C10: the built-in module CSV record format (7 fields, role indexes
1..7, date layout "2006-01-02") satisfies `Validate`. -/
theorem C10_module_format_valid :
    CSVRecordFormat.Validate GetModuleCSVFormat = none := by decide

/-! ## The Ledger transcoder (`ledger.go`) -/

/-- Go `unicode.IsSpace`: the Unicode White_Space code points (in
Latin-1: tab, newline, vertical tab, form feed, carriage return,
space, NEL, no-break space; plus the higher space code points). -/
def goIsSpace (c : Char) : Bool :=
  let n := c.toNat
  n == 9 || n == 10 || n == 11 || n == 12 || n == 13 || n == 32 ||
    n == 0x85 || n == 0xA0 || n == 0x1680 || (0x2000 ≤ n && n ≤ 0x200A) ||
    n == 0x2028 || n == 0x2029 || n == 0x202F || n == 0x205F || n == 0x3000

/-- Helper of `strFields`: splits around runs of white space,
accumulating the current word in reverse. -/
def fieldsAux : List Char → List Char → List (List Char)
  | [], w => if w = [] then [] else [w.reverse]
  | c :: cs, w =>
    if goIsSpace c then
      if w = [] then fieldsAux cs [] else w.reverse :: fieldsAux cs []
    else fieldsAux cs (c :: w)

/-- Go `strings.Fields`: the white-space-delimited tokens of a string. -/
def strFields (s : String) : List String := (fieldsAux s.data []).map String.mk

/-- Go `strings.Join` with a separator. -/
def stringsJoin (sep : String) : List String → String
  | [] => ""
  | [s] => s
  | s :: rest => s ++ sep ++ stringsJoin sep rest

/-- Function `startsDigit` reports whether the string starts with a
decimal digit (inlined in `ParseLedger` as
`len(line) == 0 || !unicode.IsDigit(rune(line[0]))`). -/
def startsDigit (s : String) : Bool :=
  match s.data with
  | [] => false
  | c :: _ => isDigitCh c

/-- Go `strings.HasPrefix`. -/
def strStartsWith (s p : String) : Bool := p.data.isPrefixOf s.data

/-- Go `strings.HasSuffix`. -/
def strEndsWith (s p : String) : Bool := p.data.isSuffixOf s.data

/-- Function `getCode` returns a transaction code from the Ledger
journal entry string: recognized only when at least 3 bytes long and
wrapped in the bracket pair `(` `)`; the interior is the code. -/
def getCode (s : String) : String :=
  let cs := s.data
  if cs.length < 3 ∨ cs.head? ≠ some '(' ∨ cs.getLast? ≠ some ')' then ""
  else String.mk ((cs.drop 1).dropLast)

/-- Function `getDate` returns the actual date from a Ledger journal
entry date string of syntax `actual[=effective]`: the part before the
first `=` (via `strings.Cut`), parsed in the canonical layout. -/
def getDate (s : String) : Except Err String :=
  ParseDate (String.mk (s.data.takeWhile (fun c => c ≠ '='))) timeDateOnly

/-- Function `isStatusMark` reports whether the string is a Ledger
journal entry status mark (`*` cleared, `!` pending). -/
def isStatusMark (s : String) : Bool := s == "*" || s == "!"

/-- The tail of `ParseLedger` after the token index `i` of the
candidate code has been chosen: assign the code, advance past it when
recognized, and join the remaining tokens into the memo. -/
def parseLedgerTail (t : Transaction) (fs : List String) (i : Nat) :
    Transaction × Option Err :=
  let code := getCode (fs.getD i "")
  let t1 := {t with Code := code}
  let i1 := if code ≠ "" then i + 1 else i
  if i1 < fs.length then ({t1 with Memo := stringsJoin " " (fs.drop i1)}, none)
  else (t1, none)

/-- Method `ParseLedger` of `Transaction`: parses the date, code and
memo fields from the first line of a Ledger journal entry, mutating
the receiver; the other fields are not assigned. -/
def ParseLedger (t : Transaction) (lines : List String) : Transaction × Option Err :=
  match lines with
  | [] => (t, some .errStartNumber)
  | line :: _ =>
    if ¬ startsDigit line then (t, some .errStartNumber)
    else
      match strFields line with
      | [] => (t, none)  -- unreachable: a line starting with a digit has at least one token
      | f0 :: rest =>
        match getDate f0 with
        | .error e => ({t with Date := ""}, some e)
        | .ok d =>
          let t1 := {t with Date := d}
          let fs := f0 :: rest
          if 3 ≤ fs.length ∧ isStatusMark (fs.getD 1 "") then parseLedgerTail t1 fs 2
          else if 2 ≤ fs.length then parseLedgerTail t1 fs 1
          else (t1, none)

/-- Method `StringLedger` of `Transaction`: renders the transaction as
a Ledger journal entry, `"%v%v %v\n %v  %v\n %v\n"` over date, wrapped
code, memo, this account, amount with currency placement, and other
account. -/
def StringLedger (t : Transaction) : String :=
  let a := stringAmount t.Amount
  let a1 :=
    if t.Currency = "" then a
    else if t.Currency = "$" then "$" ++ a
    else a ++ " " ++ t.Currency
  let co :=
    if t.Code = "" then ""
    else " " ++ (if strStartsWith t.Code "(" then "" else "(") ++ t.Code ++
      (if strEndsWith t.Code ")" then "" else ")")
  t.Date ++ co ++ " " ++ t.Memo ++ "\n " ++ t.ThisAccount ++ "  " ++ a1 ++
    "\n " ++ t.OtherAccount ++ "\n"

/-! ## Claims C5, C6, C8 and C9: the Ledger transcoder -/

/-- C5 counterexample: the two-token line `"2023-12-29 *"` has a valid
date first token and a status mark second token, yet `ParseLedger`
does not skip the mark: it ends up in the memo. -/
theorem C5_counterexample :
    strFields "2023-12-29 *" = ["2023-12-29", "*"] ∧
    isStatusMark "*" = true ∧
    getDate "2023-12-29" = .ok "2023-12-29" ∧
    (ParseLedger emptyTransaction ["2023-12-29 *"]).1.Memo = "*" := by
  refine ⟨by decide, by decide, by decide, by decide⟩

/-- C5 amended: on a header line with at least three tokens whose
second token is a status mark, `ParseLedger` skips the mark: the
candidate code is taken from the third token, and the memo is joined
from the tokens after the mark (past the code when it is recognized),
so the mark reaches neither the code nor the memo. -/
theorem C5_status_mark_skipped (t : Transaction) (line dt m t2 d : String)
    (rest : List String)
    (h1 : strFields line = dt :: m :: t2 :: rest)
    (hm : isStatusMark m = true)
    (hd : startsDigit line = true)
    (hdate : getDate dt = .ok d) :
    ParseLedger t [line] =
      if getCode t2 ≠ "" then
        ({t with
            Date := d
            Code := getCode t2
            Memo := if rest ≠ [] then stringsJoin " " rest else t.Memo}, none)
      else
        ({t with
            Date := d
            Code := ""
            Memo := stringsJoin " " (t2 :: rest)}, none) := by
  have key : ParseLedger t [line] =
      parseLedgerTail {t with Date := d} (dt :: m :: t2 :: rest) 2 := by
    simp only [ParseLedger]
    rw [if_neg (by simp [hd]), h1]
    simp only [hdate]
    split
    · rfl
    · next hcontra =>
        exact absurd ⟨by simp, by simpa [List.getD] using hm⟩ hcontra
  rw [key]
  have hgetd : (dt :: m :: t2 :: rest).getD 2 "" = t2 := by simp [List.getD]
  simp only [parseLedgerTail, hgetd]
  by_cases hc : getCode t2 = ""
  · simp only [hc, ne_eq, not_true_eq_false, if_false, List.length_cons]
    rw [if_pos (by omega : 2 < rest.length + 1 + 1 + 1)]
    simp [hc]
  · simp only [hc, ne_eq, not_false_eq_true, if_true, List.length_cons]
    by_cases hr : rest = []
    · subst hr
      simp [hc]
    · have hrl : rest.length ≠ 0 := fun h => hr (List.length_eq_zero.mp h)
      rw [if_pos (by omega : 2 + 1 < rest.length + 1 + 1 + 1)]
      simp [hc, hr]

/-- Witness for the amended C5, at the concrete scenario line: the
status mark is skipped, the code comes from the bracketed third token
and the memo from the remaining tokens. -/
theorem C5_status_mark_skipped_witness :
    ParseLedger emptyTransaction ["2023-12-29 * (AP) Automatic Payment Rates"] =
      ({emptyTransaction with
          Date := "2023-12-29"
          Code := "AP"
          Memo := "Automatic Payment Rates"}, none) := by
  have h := C5_status_mark_skipped emptyTransaction
    "2023-12-29 * (AP) Automatic Payment Rates" "2023-12-29" "*" "(AP)"
    "2023-12-29" ["Automatic", "Payment", "Rates"]
    (by decide) (by decide) (by decide) (by decide)
  rw [h]
  decide

/-- C6: evaluating `StringLedger` at the transaction of the claim
yields the entry with one leading space before each account line, not
the two-space rendering stated by the claim (and expected by the
repository's own test `TestHappyLedger`). -/
theorem C6_ledger_format_single_space :
    StringLedger ⟨mkRat (-123) 100, "", "", "2025-05-05", "Transfer", "XYZ", "ABC"⟩ =
      "2025-05-05 Transfer\n ABC  -1.23\n XYZ\n" ∧
    StringLedger ⟨mkRat (-123) 100, "", "", "2025-05-05", "Transfer", "XYZ", "ABC"⟩ ≠
      "2025-05-05 Transfer\n  ABC  -1.23\n  XYZ\n" := by
  refine ⟨by decide, by decide⟩

/-- Frame lemma for the tail of `ParseLedger`: only code and memo are
assigned there. -/
theorem parseLedgerTail_frame (t : Transaction) (fs : List String) (i : Nat) :
    (parseLedgerTail t fs i).1.Amount = t.Amount ∧
    (parseLedgerTail t fs i).1.Currency = t.Currency ∧
    (parseLedgerTail t fs i).1.ThisAccount = t.ThisAccount ∧
    (parseLedgerTail t fs i).1.OtherAccount = t.OtherAccount ∧
    (parseLedgerTail t fs i).1.Date = t.Date := by
  simp only [parseLedgerTail]
  split <;> split <;> simp

/-- C8: `ParseLedger` never modifies the amount, currency, this-account
or other-account fields, on success or failure. -/
theorem C8_parseLedger_frame (t : Transaction) (lines : List String) :
    (ParseLedger t lines).1.Amount = t.Amount ∧
    (ParseLedger t lines).1.Currency = t.Currency ∧
    (ParseLedger t lines).1.ThisAccount = t.ThisAccount ∧
    (ParseLedger t lines).1.OtherAccount = t.OtherAccount := by
  cases lines with
  | nil => simp [ParseLedger]
  | cons line restLines =>
    by_cases hd : startsDigit line
    · simp only [ParseLedger]
      rw [if_neg (by simp [hd])]
      split
      · simp
      · split
        · simp
        · split
          · exact ⟨(parseLedgerTail_frame _ _ 2).1, (parseLedgerTail_frame _ _ 2).2.1,
              (parseLedgerTail_frame _ _ 2).2.2.1, (parseLedgerTail_frame _ _ 2).2.2.2.1⟩
          · split
            · exact ⟨(parseLedgerTail_frame _ _ 1).1, (parseLedgerTail_frame _ _ 1).2.1,
                (parseLedgerTail_frame _ _ 1).2.2.1, (parseLedgerTail_frame _ _ 1).2.2.2.1⟩
            · simp
    · simp [ParseLedger, hd]

/-- C9: on a header line consisting of exactly one token which is a
valid canonical date, `ParseLedger` succeeds, sets the date to the
canonical form of that token, and leaves code and memo (and all other
fields) unchanged. -/
theorem C9_single_token_header (t : Transaction) (line w d : String)
    (hsd : startsDigit line = true)
    (hf : strFields line = [w])
    (hd : getDate w = .ok d) :
    ParseLedger t [line] = ({t with Date := d}, none) := by
  simp only [ParseLedger]
  rw [if_neg (by simp [hsd]), hf]
  simp only [hd]
  norm_num

/-- Witness for C9: a transaction with non-empty code and memo keeps
them when parsing the one-token header `"2023-12-29"`. -/
theorem C9_single_token_header_witness :
    ParseLedger ⟨mkRat 1 1, "MT", "$", "1999-01-01", "memo", "Other", "This"⟩
        ["2023-12-29"] =
      (⟨mkRat 1 1, "MT", "$", "2023-12-29", "memo", "Other", "This"⟩, none) :=
  C9_single_token_header _ "2023-12-29" "2023-12-29" "2023-12-29"
    (by decide) (by decide) (by decide)

/-! ## The transaction validator (`transaction.go`) and CSV transcoder (`csv.go`) -/

/-- Method `Validate` of `Transaction`: returns `none` if the
transaction is valid (non-zero amount, canonical date, non-empty memo
and accounts, distinct accounts); otherwise the first error. -/
def Transaction.Validate (t : Transaction) : Option Err :=
  if t.Amount = 0 then some .errAmount
  else
    match validateDateOnly t.Date with
    | some e => some e
    | none =>
      if t.Memo = "" then some .errMemo
      else if t.OtherAccount = "" then some .errOtherAccount
      else if t.ThisAccount = "" then some .errThisAccount
      else if t.OtherAccount = t.ThisAccount then some .errAccounts
      else none

/-- Method `IsValid` of `Transaction`. -/
def Transaction.IsValid (t : Transaction) : Bool := t.Validate = none

/-- Method `StringModuleCSV` of `Transaction`: the module's CSV record
`date,thisAccount,otherAccount,code,memo,amount,currency` with a
newline terminator (`strings.Join(fs, ",") + "\n"`). -/
def StringModuleCSV (t : Transaction) : String :=
  stringsJoin ","
    [t.Date, t.ThisAccount, t.OtherAccount, t.Code, t.Memo,
      stringAmount t.Amount, t.Currency] ++ "\n"

/-- Go `strings.Split(s, ",")` on characters. -/
def splitCommaCh : List Char → List (List Char)
  | [] => [[]]
  | c :: rest =>
    if c = ',' then [] :: splitCommaCh rest
    else
      match splitCommaCh rest with
      | [] => [[c]]  -- unreachable: splitCommaCh never returns []
      | f :: fs => (c :: f) :: fs

/-- Go `strings.Split(s, ",")`. -/
def splitComma (s : String) : List String := (splitCommaCh s.data).map String.mk

/-- The comma-split of one module CSV record: the record text without
its newline terminator, split on commas (as in the repository's
round-trip test, which trims the newline before `strings.Split`). -/
def splitRecord (s : String) : List String := (splitCommaCh s.data.dropLast).map String.mk

/-- Method `ParseCSV` of `Transaction`: parses the transaction from the
CSV record fields according to the format, mutating the receiver
field by field with early error returns, exactly as the Go code does
(including the prepended empty string standing for absent roles, the
currency and this-account precedence rules, and the `Imbalance`
defaulting and rejection). -/
def ParseCSV (t : Transaction) (fields : List String) (crf : CSVRecordFormat) :
    Transaction × Option Err :=
  if fields.length ≠ crf.NFields then (t, some .errNFields)
  else
    let fs := "" :: fields
    match ParseDate (fs.getD crf.DateI "") crf.DateLayout with
    | .error e => ({t with Date := ""}, some e)
    | .ok dt =>
      let t1 := {t with Date := dt}
      match parseAmount fs crf with
      | .error e => ({t1 with Amount := 0}, some e)
      | .ok v =>
        let t2 := {t1 with Amount := v}
        let t3 := {t2 with Code := fs.getD crf.CodeI ""}
        let t4 := if t3.Currency = "" then {t3 with Currency := fs.getD crf.CurrencyI ""} else t3
        let t5 := {t4 with Memo := fs.getD crf.MemoI ""}
        if t5.Memo = "" then (t5, some .errMemo)
        else
          let t6 := {t5 with OtherAccount := fs.getD crf.OtherAccountI ""}
          let t7 := if t6.OtherAccount = "" then {t6 with OtherAccount := DefaultOtherAccount} else t6
          if t7.ThisAccount = DefaultOtherAccount ∨ fs.getD crf.ThisAccountI "" = DefaultOtherAccount then
            (t7, some .errThisAccount)
          else if t7.ThisAccount ≠ "" then (t7, none)
          else if fs.getD crf.ThisAccountI "" ≠ "" then
            ({t7 with ThisAccount := fs.getD crf.ThisAccountI ""}, none)
          else (t7, some .errThisAccount)

/-! ## Claim C1: the CSV round-trip -/

/-- A valid transaction whose memo contains a comma. -/
def tCommaMemo : Transaction :=
  ⟨mkRat 42 1, "", "", "2025-05-02", "a,b", "X", "Y"⟩

/-- C1 counterexample: `tCommaMemo` satisfies `Validate`, yet decoding
the comma-split of its module CSV record fails (the comma inside the
memo splits the record into eight fields), so the round-trip does not
return the transaction. -/
theorem C1_counterexample :
    Transaction.Validate tCommaMemo = none ∧
    ParseCSV emptyTransaction (splitRecord (StringModuleCSV tCommaMemo))
        GetModuleCSVFormat =
      (emptyTransaction, some .errNFields) := by
  refine ⟨by decide, by decide⟩

/-! ## Digit-string lemmas, towards the round-trip theorem -/

theorem digitVal_digitChar (d : Nat) (h : d < 10) : digitVal (digitChar d) = d := by
  interval_cases d <;> decide

theorem isDigitCh_digitChar (d : Nat) (h : d < 10) : isDigitCh (digitChar d) = true := by
  interval_cases d <;> decide

theorem isDigitCh_bounds (c : Char) (h : isDigitCh c = true) :
    48 ≤ c.toNat ∧ c.toNat ≤ 57 := by
  simpa [isDigitCh] using h

theorem digitChar_digitVal (c : Char) (h : isDigitCh c = true) :
    digitChar (digitVal c) = c := by
  obtain ⟨h1, _⟩ := isDigitCh_bounds c h
  unfold digitChar digitVal
  rw [Nat.add_sub_cancel' h1, Char.ofNat_toNat]

theorem digitVal_le_nine (c : Char) (h : isDigitCh c = true) : digitVal c ≤ 9 := by
  obtain ⟨h1, h2⟩ := isDigitCh_bounds c h
  unfold digitVal
  omega

theorem isDigitCh_ne (c : Char) (h : isDigitCh c = true) :
    c ≠ '-' ∧ c ≠ '+' ∧ c ≠ '.' ∧ c ≠ ',' ∧ c ≠ 'e' ∧ c ≠ 'E' := by
  refine ⟨?_, ?_, ?_, ?_, ?_, ?_⟩ <;> (rintro rfl; exact absurd h (by decide))

theorem digitsVal_lt (ds : List Char) (h : ∀ c ∈ ds, isDigitCh c = true) :
    digitsVal ds < 10 ^ ds.length := by
  induction ds with
  | nil => decide
  | cons c cs ih =>
    have h9 : digitVal c ≤ 9 := digitVal_le_nine c (h c (List.mem_cons_self c cs))
    have hrec := ih (fun x hx => h x (List.mem_cons_of_mem c hx))
    have hmul : digitVal c * 10 ^ cs.length ≤ 9 * 10 ^ cs.length :=
      Nat.mul_le_mul_right _ h9
    simp only [digitsVal, List.length_cons, pow_succ]
    omega

theorem digitsVal_append (a b : List Char) :
    digitsVal (a ++ b) = digitsVal a * 10 ^ b.length + digitsVal b := by
  induction a with
  | nil => simp [digitsVal]
  | cons c cs ih =>
    simp only [List.cons_append, digitsVal, List.append_eq]
    rw [ih, List.length_append, pow_add]
    ring

theorem natDigitsAux_spec (fuel : Nat) :
    ∀ n ≤ fuel, digitsVal (natDigitsAux (fuel + 1) n) = n ∧
      (∀ c ∈ natDigitsAux (fuel + 1) n, isDigitCh c = true) ∧
      natDigitsAux (fuel + 1) n ≠ [] := by
  induction fuel with
  | zero =>
    intro n hn
    interval_cases n
    decide
  | succ fuel ih =>
    intro n hn
    by_cases h10 : n < 10
    · simp only [natDigitsAux, if_pos h10]
      refine ⟨?_, ?_, by simp⟩
      · simp [digitsVal, digitVal_digitChar n h10]
      · intro c hc
        simp only [List.mem_singleton] at hc
        subst hc
        exact isDigitCh_digitChar n h10
    · have hdiv : n / 10 ≤ fuel := by omega
      obtain ⟨ihv, ihd, ihn⟩ := ih (n / 10) hdiv
      rw [show natDigitsAux (fuel + 1 + 1) n =
          natDigitsAux (fuel + 1) (n / 10) ++ [digitChar (n % 10)] from by
        rw [natDigitsAux, if_neg h10]]
      refine ⟨?_, ?_, by simp⟩
      · rw [digitsVal_append, ihv]
        have hm : n % 10 < 10 := Nat.mod_lt n (by omega)
        simp [digitsVal, digitVal_digitChar _ hm]
        omega
      · intro c hc
        rcases List.mem_append.mp hc with hc | hc
        · exact ihd c hc
        · simp only [List.mem_singleton] at hc
          subst hc
          exact isDigitCh_digitChar _ (Nat.mod_lt n (by omega))

theorem digitsVal_natDigits (n : Nat) : digitsVal (natDigits n) = n :=
  (natDigitsAux_spec n n le_rfl).1

theorem natDigits_isDigit (n : Nat) : ∀ c ∈ natDigits n, isDigitCh c = true :=
  (natDigitsAux_spec n n le_rfl).2.1

theorem natDigits_ne_nil (n : Nat) : natDigits n ≠ [] :=
  (natDigitsAux_spec n n le_rfl).2.2

theorem padDigits_length (k n : Nat) : (padDigits k n).length = k := by
  induction k generalizing n with
  | zero => rfl
  | succ k ih => simp [padDigits, ih]

theorem digitsVal_padDigits (k n : Nat) (h : n < 10 ^ k) :
    digitsVal (padDigits k n) = n := by
  induction k generalizing n with
  | zero =>
    simp only [pow_zero, Nat.lt_one_iff] at h
    subst h
    rfl
  | succ k ih =>
    have hdivlt : n / 10 ^ k < 10 := by
      rw [Nat.div_lt_iff_lt_mul (Nat.pos_pow_of_pos k (by omega))]
      calc n < 10 ^ (k + 1) := h
        _ = 10 * 10 ^ k := by ring
        _ ≤ 10 * 10 ^ k := le_rfl
    have hmod : n % 10 ^ k < 10 ^ k := Nat.mod_lt n (Nat.pos_pow_of_pos k (by omega))
    simp only [padDigits, digitsVal, padDigits_length, digitVal_digitChar _ hdivlt,
      ih _ hmod]
    rw [Nat.mul_comm (n / 10 ^ k) (10 ^ k)]
    exact Nat.div_add_mod n (10 ^ k)

theorem padDigits_isDigit (k n : Nat) (h : n < 10 ^ k) :
    ∀ c ∈ padDigits k n, isDigitCh c = true := by
  induction k generalizing n with
  | zero => simp [padDigits]
  | succ k ih =>
    have hdivlt : n / 10 ^ k < 10 := by
      rw [Nat.div_lt_iff_lt_mul (Nat.pos_pow_of_pos k (by omega))]
      calc n < 10 ^ (k + 1) := h
        _ = 10 * 10 ^ k := by ring
        _ ≤ 10 * 10 ^ k := le_rfl
    have hmod : n % 10 ^ k < 10 ^ k := Nat.mod_lt n (Nat.pos_pow_of_pos k (by omega))
    intro c hc
    simp only [padDigits, List.mem_cons] at hc
    rcases hc with rfl | hc
    · exact isDigitCh_digitChar _ hdivlt
    · exact ih _ hmod c hc

theorem padDigits_digitsVal (ds : List Char) (h : ∀ c ∈ ds, isDigitCh c = true) :
    padDigits ds.length (digitsVal ds) = ds := by
  induction ds with
  | nil => rfl
  | cons c cs ih =>
    have hc : isDigitCh c = true := h c (List.mem_cons_self c cs)
    have hrest : ∀ x ∈ cs, isDigitCh x = true := fun x hx => h x (List.mem_cons_of_mem c hx)
    have hlt : digitsVal cs < 10 ^ cs.length := digitsVal_lt cs hrest
    have hP : 0 < 10 ^ cs.length := Nat.pos_pow_of_pos _ (by omega)
    simp only [List.length_cons, padDigits, digitsVal]
    have hdiv : (digitVal c * 10 ^ cs.length + digitsVal cs) / 10 ^ cs.length = digitVal c := by
      rw [Nat.add_comm, Nat.add_mul_div_right _ _ hP, Nat.div_eq_of_lt hlt]
      omega
    have hmod : (digitVal c * 10 ^ cs.length + digitsVal cs) % 10 ^ cs.length = digitsVal cs := by
      rw [Nat.add_comm, Nat.add_mul_mod_self_right]
      exact Nat.mod_eq_of_lt hlt
    rw [hdiv, hmod, digitChar_digitVal c hc, ih hrest]

theorem spanDigits_of (ds rest : List Char)
    (h1 : ∀ c ∈ ds, isDigitCh c = true)
    (h2 : ∀ c, rest.head? = some c → isDigitCh c = false) :
    spanDigits (ds ++ rest) = (ds, rest) := by
  induction ds with
  | nil =>
    simp only [List.nil_append]
    cases rest with
    | nil => rfl
    | cons c r =>
      have hc := h2 c rfl
      simp [spanDigits, hc]
  | cons d ds' ih =>
    have hd : isDigitCh d = true := h1 d (List.mem_cons_self d ds')
    have hr : ∀ c ∈ ds', isDigitCh c = true := fun c hc => h1 c (List.mem_cons_of_mem d hc)
    simp only [List.cons_append, spanDigits, hd, if_true, List.append_eq]
    rw [ih hr]

theorem parseFloatAfterSign_digits (neg : Bool) (ds : List Char) (hne : ds ≠ [])
    (hd : ∀ c ∈ ds, isDigitCh c = true) :
    parseFloatAfterSign neg ds =
      some (mkRat ((if neg then -1 else 1) * (digitsVal ds : Int)) 1) := by
  have hspan : spanDigits ds = (ds, []) := by
    have := spanDigits_of ds [] hd (by intro c hc; simp at hc)
    simpa using this
  simp only [parseFloatAfterSign, hspan]
  rw [if_neg (by simp [hne])]
  simp

theorem parseFloatAfterSign_digits_dot (neg : Bool) (ds fs : List Char) (hne : ds ≠ [])
    (hd : ∀ c ∈ ds, isDigitCh c = true) (hf : ∀ c ∈ fs, isDigitCh c = true) :
    parseFloatAfterSign neg (ds ++ '.' :: fs) =
      some (mkRat ((if neg then -1 else 1) * (digitsVal (ds ++ fs) : Int)) (10 ^ fs.length)) := by
  have hspan : spanDigits (ds ++ '.' :: fs) = (ds, '.' :: fs) :=
    spanDigits_of ds ('.' :: fs) hd (by intro c hc; simp at hc; subst hc; decide)
  have hspan2 : spanDigits fs = (fs, []) := by
    have := spanDigits_of fs [] hf (by intro c hc; simp at hc)
    simpa using this
  simp only [parseFloatAfterSign, hspan, reduceIte]
  simp only [hspan2]
  rw [if_neg (by simp [hne])]

theorem parseFloatCh_digit_head (cs : List Char) (c : Char) (h : cs.head? = some c)
    (hc : isDigitCh c = true) : parseFloatCh cs = parseFloatAfterSign false cs := by
  cases cs with
  | nil => simp at h
  | cons x xs =>
    have hx : x = c := by simpa using h
    subst hx
    obtain ⟨hm, hp, _⟩ := isDigitCh_ne x hc
    simp [parseFloatCh, hm, hp]

theorem dvd_pow10_exists_le (den k : ℕ) (h : den ∣ 10 ^ k) :
    ∃ j, j ≤ den ∧ den ∣ 10 ^ j := by
  have h25 : den ∣ 2 ^ k * 5 ^ k := by
    have hten : (10 : ℕ) ^ k = 2 ^ k * 5 ^ k := by
      rw [show (10 : ℕ) = 2 * 5 from rfl, Nat.mul_pow]
    rwa [hten] at h
  obtain ⟨a, b, ha, hb, hab⟩ := exists_dvd_and_dvd_of_dvd_mul h25
  obtain ⟨x, _, rfl⟩ := (Nat.dvd_prime_pow Nat.prime_two).mp ha
  obtain ⟨y, _, rfl⟩ := (Nat.dvd_prime_pow Nat.prime_five).mp hb
  subst hab
  refine ⟨max x y, ?_, ?_⟩
  · have hxb : x < 2 ^ x := Nat.lt_two_pow x
    have h2x : 2 ^ x ≤ 2 ^ x * 5 ^ y :=
      Nat.le_mul_of_pos_right _ (Nat.pos_pow_of_pos _ (by omega))
    have hyb : y < 2 ^ y := Nat.lt_two_pow y
    have h5y : 2 ^ y ≤ 5 ^ y := Nat.pow_le_pow_left (by omega) y
    have h5y' : 5 ^ y ≤ 2 ^ x * 5 ^ y :=
      Nat.le_mul_of_pos_left _ (Nat.pos_pow_of_pos _ (by omega))
    omega
  · have hten : (10 : ℕ) ^ max x y = 2 ^ max x y * 5 ^ max x y := by
      rw [show (10 : ℕ) = 2 * 5 from rfl, Nat.mul_pow]
    rw [hten]
    exact Nat.mul_dvd_mul (pow_dvd_pow 2 (le_max_left x y)) (pow_dvd_pow 5 (le_max_right x y))

theorem mkRat_eq_q (z : ℤ) (d : ℕ) (hd : d ≠ 0) (q : ℚ)
    (h : z * (q.den : ℤ) = q.num * (d : ℤ)) : mkRat z d = q := by
  rw [Rat.mkRat_eq_divInt]
  conv_rhs => rw [← Rat.num_divInt_den q]
  rw [Rat.divInt_eq_iff (by exact_mod_cast hd)
    (by exact_mod_cast q.den_nz)]
  exact h

theorem parseFloatCh_render (neg : Bool) (m k1 : ℕ) :
    parseFloatCh ((if neg then ['-'] else []) ++
        (if k1 = 0 then natDigits m
         else natDigits (m / 10 ^ k1) ++ '.' :: padDigits k1 (m % 10 ^ k1))) =
      some (mkRat ((if neg then -1 else 1) * (m : ℤ)) (10 ^ k1)) := by
  have hpow : 0 < (10 : ℕ) ^ k1 := Nat.pos_pow_of_pos _ (by omega)
  by_cases hk0 : k1 = 0
  · subst hk0
    rw [if_pos (show (0 : ℕ) = 0 from rfl)]
    obtain ⟨c, cs, hc⟩ := List.exists_cons_of_ne_nil (natDigits_ne_nil m)
    have hcd : isDigitCh c = true :=
      natDigits_isDigit m c (by rw [hc]; exact List.mem_cons_self c cs)
    cases neg with
    | false =>
      simp only [Bool.false_eq_true, if_false, List.nil_append]
      rw [parseFloatCh_digit_head _ c (by rw [hc]; rfl) hcd,
        parseFloatAfterSign_digits false _ (natDigits_ne_nil m) (natDigits_isDigit m),
        digitsVal_natDigits]
      simp
    | true =>
      simp only [if_true, List.cons_append, List.nil_append]
      rw [show parseFloatCh ('-' :: natDigits m) = parseFloatAfterSign true (natDigits m) from by
        simp [parseFloatCh]]
      rw [parseFloatAfterSign_digits true _ (natDigits_ne_nil m) (natDigits_isDigit m),
        digitsVal_natDigits]
      simp
  · have hmod : m % 10 ^ k1 < 10 ^ k1 := Nat.mod_lt _ hpow
    have hfd : ∀ c ∈ padDigits k1 (m % 10 ^ k1), isDigitCh c = true :=
      padDigits_isDigit k1 _ hmod
    have hval : digitsVal (natDigits (m / 10 ^ k1) ++ padDigits k1 (m % 10 ^ k1)) = m := by
      rw [digitsVal_append, digitsVal_natDigits, padDigits_length,
        digitsVal_padDigits k1 _ hmod, Nat.mul_comm]
      exact Nat.div_add_mod m (10 ^ k1)
    rw [if_neg hk0]
    obtain ⟨c, cs, hc⟩ := List.exists_cons_of_ne_nil (natDigits_ne_nil (m / 10 ^ k1))
    have hcd : isDigitCh c = true :=
      natDigits_isDigit _ c (by rw [hc]; exact List.mem_cons_self c cs)
    cases neg with
    | false =>
      simp only [Bool.false_eq_true, if_false, List.nil_append]
      rw [parseFloatCh_digit_head _ c (by rw [hc]; rfl) hcd,
        parseFloatAfterSign_digits_dot false _ _ (natDigits_ne_nil _)
          (natDigits_isDigit _) hfd, hval, padDigits_length]
      simp
    | true =>
      simp only [if_true, List.cons_append, List.nil_append]
      rw [show parseFloatCh
            ('-' :: (natDigits (m / 10 ^ k1) ++ '.' :: padDigits k1 (m % 10 ^ k1))) =
          parseFloatAfterSign true
            (natDigits (m / 10 ^ k1) ++ '.' :: padDigits k1 (m % 10 ^ k1)) from by
        simp [parseFloatCh]]
      rw [parseFloatAfterSign_digits_dot true _ _ (natDigits_ne_nil _)
        (natDigits_isDigit _) hfd, hval, padDigits_length]
      simp

/-- Round-trip of the amount rendering: parsing the rendered string of
a decimal rational (one whose denominator divides a power of ten, as
every binary64 value is) returns the value exactly. -/
theorem parseFloat_stringAmount (q : ℚ)
    (hdec : ∃ (z : ℤ) (k : ℕ), q = mkRat z (10 ^ k)) :
    parseFloat (stringAmount q) = .ok q := by
  by_cases hq : q = 0
  · subst hq
    decide
  obtain ⟨z, k, hz⟩ := hdec
  have hden : q.den ∣ 10 ^ k := by
    have hd := Rat.den_dvd z ((10 ^ k : ℕ) : ℤ)
    rw [← Rat.mkRat_eq_divInt, ← hz] at hd
    exact_mod_cast hd
  obtain ⟨j, hjle, hjdvd⟩ := dvd_pow10_exists_le q.den k hden
  obtain ⟨k1, hk1⟩ : ∃ k1,
      (List.range (q.den + 1)).find? (fun k => 10 ^ k % q.den == 0) = some k1 := by
    cases hf : (List.range (q.den + 1)).find? (fun k => 10 ^ k % q.den == 0) with
    | some k1 => exact ⟨k1, rfl⟩
    | none =>
      exfalso
      have hnone := List.find?_eq_none.mp hf j (by simp only [List.mem_range]; omega)
      apply hnone
      obtain ⟨c, hc⟩ := hjdvd
      rw [hc]
      simp [Nat.mul_mod_right]
  have hk1dvd : q.den ∣ 10 ^ k1 := by
    have hp := List.find?_some hk1
    exact Nat.dvd_of_mod_eq_zero (by simpa using hp)
  have hmdvd : q.den ∣ q.num.natAbs * 10 ^ k1 := Dvd.dvd.mul_left hk1dvd _
  have hmden : q.num.natAbs * 10 ^ k1 / q.den * q.den = q.num.natAbs * 10 ^ k1 :=
    Nat.div_mul_cancel hmdvd
  have hstr : (stringAmount q).data =
      (if q.num < 0 then ['-'] else []) ++
        (if k1 = 0 then natDigits (q.num.natAbs * 10 ^ k1 / q.den)
         else natDigits (q.num.natAbs * 10 ^ k1 / q.den / 10 ^ k1) ++
           '.' :: padDigits k1 (q.num.natAbs * 10 ^ k1 / q.den % 10 ^ k1)) := by
    simp only [stringAmount, if_neg hq, hk1]
    by_cases hk0 : k1 = 0 <;> simp [hk0]
  have hrender := parseFloatCh_render (decide (q.num < 0))
    (q.num.natAbs * 10 ^ k1 / q.den) k1
  simp only [decide_eq_true_eq] at hrender
  rw [← hstr] at hrender
  have hcross : ((if q.num < 0 then (-1 : ℤ) else 1) *
        ((q.num.natAbs * 10 ^ k1 / q.den : ℕ) : ℤ)) * (q.den : ℤ) =
      q.num * ((10 ^ k1 : ℕ) : ℤ) := by
    have hZ : ((q.num.natAbs * 10 ^ k1 / q.den : ℕ) : ℤ) * (q.den : ℤ) =
        ((q.num.natAbs : ℕ) : ℤ) * ((10 ^ k1 : ℕ) : ℤ) := by
      exact_mod_cast hmden
    by_cases hneg : q.num < 0
    · have habs : ((q.num.natAbs : ℕ) : ℤ) = -q.num :=
        Int.ofNat_natAbs_of_nonpos (le_of_lt hneg)
      rw [habs] at hZ
      rw [if_pos hneg]
      linear_combination (-1 : ℤ) * hZ
    · have habs : ((q.num.natAbs : ℕ) : ℤ) = q.num :=
        Int.natAbs_of_nonneg (le_of_not_lt hneg)
      rw [habs] at hZ
      rw [if_neg hneg]
      linear_combination hZ
  have hq' : mkRat ((if q.num < 0 then (-1 : ℤ) else 1) *
      ((q.num.natAbs * 10 ^ k1 / q.den : ℕ) : ℤ)) (10 ^ k1) = q :=
    mkRat_eq_q _ _ (pow_ne_zero k1 (by omega)) q hcross
  rw [parseFloat, hrender, hq']

theorem readFixed_inv : ∀ (k acc : ℕ) (cs : List Char) (n : ℕ) (rest : List Char),
    readFixed k acc cs = some (n, rest) →
    ∃ ds, cs = ds ++ rest ∧ ds.length = k ∧ (∀ c ∈ ds, isDigitCh c = true) ∧
      n = acc * 10 ^ k + digitsVal ds := by
  intro k
  induction k with
  | zero =>
    intro acc cs n rest h
    simp only [readFixed, Option.some.injEq, Prod.mk.injEq] at h
    obtain ⟨rfl, rfl⟩ := h
    exact ⟨[], by simp, rfl, by simp, by simp [digitsVal]⟩
  | succ k ih =>
    intro acc cs n rest h
    cases cs with
    | nil => simp [readFixed] at h
    | cons c cs' =>
      simp only [readFixed] at h
      by_cases hc : isDigitCh c
      · rw [if_pos hc] at h
        obtain ⟨ds, hcs, hlen, hdig, hval⟩ := ih (acc * 10 + digitVal c) cs' n rest h
        refine ⟨c :: ds, by simp [hcs], by simp [hlen], ?_, ?_⟩
        · intro x hx
          rcases List.mem_cons.mp hx with rfl | hx
          · exact hc
          · exact hdig x hx
        · rw [hval]
          simp only [digitsVal, hlen, pow_succ]
          ring
      · rw [if_neg hc] at h
        exact absurd h (by simp)

set_option maxHeartbeats 1600000 in
theorem goDateScan_dateOnly (val : List Char) (y m d : ℕ)
    (h : goDateScan timeDateOnly.data val (0, 1, 1) = some (y, m, d)) :
    val = padDigits 4 y ++ '-' :: (padDigits 2 m ++ '-' :: padDigits 2 d) ∧
      y < 10 ^ 4 ∧ m < 10 ^ 2 ∧ d < 10 ^ 2 := by
  have hlay : timeDateOnly.data = ['2', '0', '0', '6', '-', '0', '1', '-', '0', '2'] := rfl
  rw [hlay] at h
  simp only [goDateScan] at h
  split at h
  · rename_i py yv rest1 hy
    split at h
    · rename_i v1 vs1
      split at h
      · rename_i hv1
        split at h
        · rename_i pm mv rest3 hm
          split at h
          · rename_i v2 vs2
            split at h
            · rename_i hv2
              split at h
              · rename_i pd dv rest5 hd
                split at h
                · rename_i h5
                  simp only [Option.some.injEq, Prod.mk.injEq] at h
                  obtain ⟨rfl, rfl, rfl⟩ := h
                  subst hv1
                  subst hv2
                  subst h5
                  obtain ⟨dsy, hcy, hly, hdy, hvy⟩ := readFixed_inv 4 0 val yv ('-' :: vs1) hy
                  obtain ⟨dsm, hcm, hlm, hdm, hvm⟩ := readFixed_inv 2 0 vs1 mv ('-' :: vs2) hm
                  obtain ⟨dsd, hcd, hld, hdd, hvd⟩ := readFixed_inv 2 0 vs2 dv [] hd
                  simp only [Nat.zero_mul, Nat.zero_add] at hvy hvm hvd
                  have hby : yv < 10 ^ 4 := by
                    rw [hvy, ← hly]
                    exact digitsVal_lt dsy hdy
                  have hbm : mv < 10 ^ 2 := by
                    rw [hvm, ← hlm]
                    exact digitsVal_lt dsm hdm
                  have hbd : dv < 10 ^ 2 := by
                    rw [hvd, ← hld]
                    exact digitsVal_lt dsd hdd
                  refine ⟨?_, hby, hbm, hbd⟩
                  have hpy : padDigits 4 yv = dsy := by
                    rw [hvy, ← hly]
                    exact padDigits_digitsVal dsy hdy
                  have hpm : padDigits 2 mv = dsm := by
                    rw [hvm, ← hlm]
                    exact padDigits_digitsVal dsm hdm
                  have hpd : padDigits 2 dv = dsd := by
                    rw [hvd, ← hld]
                    exact padDigits_digitsVal dsd hdd
                  rw [hcy, hcm, hcd, hpy, hpm, hpd]
                  simp
                · exact absurd h (by simp)
              · exact absurd h (by simp)
            · exact absurd h (by simp)
          · exact absurd h (by simp)
        · exact absurd h (by simp)
      · exact absurd h (by simp)
    · exact absurd h (by simp)
  · exact absurd h (by simp)

theorem parseGoDate_dateOnly (s : String) (y m d : ℕ)
    (h : parseGoDate s.data timeDateOnly.data = some (y, m, d)) :
    formatDateOnly y m d = s ∧ (∀ c ∈ s.data, isDigitCh c = true ∨ c = '-') := by
  rw [parseGoDate] at h
  split at h
  · exact absurd h (by simp)
  · rename_i p y' m' d' hscan
    split at h
    · simp only [Option.some.injEq, Prod.mk.injEq] at h
      obtain ⟨rfl, rfl, rfl⟩ := h
      obtain ⟨hval, hby, hbm, hbd⟩ := goDateScan_dateOnly s.data y' m' d' hscan
      constructor
      · rw [formatDateOnly]
        have hlist : padDigits 4 y' ++ '-' :: padDigits 2 m' ++ '-' :: padDigits 2 d' =
            s.data := by
          rw [hval]
          simp
        rw [hlist]
      · intro c hc
        rw [hval] at hc
        simp only [List.mem_append, List.mem_cons] at hc
        rcases hc with hc | hc | hc
        · exact Or.inl (padDigits_isDigit 4 y' hby c hc)
        · exact Or.inr hc
        · rcases hc with hc | hc | hc
          · exact Or.inl (padDigits_isDigit 2 m' hbm c hc)
          · exact Or.inr hc
          · exact Or.inl (padDigits_isDigit 2 d' hbd c hc)
    · exact absurd h (by simp)

theorem ParseDate_canonical (s : String) (h : validateDateOnly s = none) :
    ParseDate s timeDateOnly = .ok s := by
  rw [validateDateOnly] at h
  cases hp : parseGoDate s.data timeDateOnly.data with
  | none => rw [hp] at h; exact absurd h (by simp)
  | some p =>
    obtain ⟨y, m, d⟩ := p
    simp only [ParseDate, hp]
    rw [(parseGoDate_dateOnly s y m d hp).1]

theorem validateDateOnly_no_comma (s : String) (h : validateDateOnly s = none) :
    ',' ∉ s.data := by
  rw [validateDateOnly] at h
  cases hp : parseGoDate s.data timeDateOnly.data with
  | none => rw [hp] at h; exact absurd h (by simp)
  | some p =>
    obtain ⟨y, m, d⟩ := p
    intro hmem
    rcases (parseGoDate_dateOnly s y m d hp).2 ',' hmem with hc | hc
    · exact absurd hc (by decide)
    · exact absurd hc (by decide)

theorem string_data_append (a b : String) : (a ++ b).data = a.data ++ b.data := rfl

theorem splitCommaCh_ne_nil (cs : List Char) : splitCommaCh cs ≠ [] := by
  cases cs with
  | nil => simp [splitCommaCh]
  | cons c rest =>
    rw [splitCommaCh]
    by_cases hc : c = ','
    · simp [hc]
    · rw [if_neg hc]
      cases splitCommaCh rest <;> simp

theorem splitCommaCh_append (cs rest : List Char) (h : ∀ c ∈ cs, c ≠ ',') :
    splitCommaCh (cs ++ rest) =
      match splitCommaCh rest with
      | [] => [cs]
      | f :: fs => (cs ++ f) :: fs := by
  induction cs with
  | nil =>
    cases hsr : splitCommaCh rest with
    | nil => exact absurd hsr (splitCommaCh_ne_nil rest)
    | cons f fs => simp [hsr]
  | cons c cs' ih =>
    have hc : c ≠ ',' := h c (List.mem_cons_self c cs')
    have hr : ∀ x ∈ cs', x ≠ ',' := fun x hx => h x (List.mem_cons_of_mem c hx)
    cases hsr : splitCommaCh rest with
    | nil => exact absurd hsr (splitCommaCh_ne_nil rest)
    | cons f fs =>
      have hih := ih hr
      rw [hsr] at hih
      rw [show (match f :: fs with
          | ([] : List (List Char)) => [cs']
          | f :: fs => (cs' ++ f) :: fs) = (cs' ++ f) :: fs from rfl] at hih
      simp only [List.cons_append, splitCommaCh, if_neg hc, List.append_eq]
      rw [hih]

theorem stringsJoin_split (parts : List String) (hne : parts ≠ [])
    (h : ∀ p ∈ parts, ',' ∉ p.data) :
    splitCommaCh (stringsJoin "," parts).data = parts.map String.data := by
  induction parts with
  | nil => exact absurd rfl hne
  | cons p rest ih =>
    cases rest with
    | nil =>
      have hp : ∀ c ∈ p.data, c ≠ ',' := by
        intro c hc hceq
        exact h p (List.mem_cons_self p []) (hceq ▸ hc)
      have := splitCommaCh_append p.data [] hp
      simp only [List.append_nil] at this
      rw [stringsJoin, this]
      simp [splitCommaCh]
    | cons q rest' =>
      have hp : ∀ c ∈ p.data, c ≠ ',' := by
        intro c hc hceq
        exact h p (List.mem_cons_self p (q :: rest')) (hceq ▸ hc)
      have hrest : ∀ x ∈ q :: rest', ',' ∉ x.data :=
        fun x hx => h x (List.mem_cons_of_mem p hx)
      have hih := ih (by simp) hrest
      rw [show stringsJoin "," (p :: q :: rest') =
          p ++ "," ++ stringsJoin "," (q :: rest') from rfl]
      rw [string_data_append, string_data_append]
      rw [show (("," : String)).data = [','] from rfl, List.append_assoc]
      rw [splitCommaCh_append p.data _ hp]
      rw [show splitCommaCh (([','] : List Char) ++ (stringsJoin "," (q :: rest')).data) =
          [] :: splitCommaCh (stringsJoin "," (q :: rest')).data from by
        simp [splitCommaCh]]
      rw [hih]
      simp

theorem depunctAmount_empty (a : String) : depunctAmount a "" = a := by
  rw [depunctAmount, if_pos rfl]

theorem stringAmount_ne_empty (q : ℚ) : stringAmount q ≠ "" := by
  rw [stringAmount]
  by_cases hq : q = 0
  · rw [if_pos hq]
    decide
  rw [if_neg hq]
  cases hf : (List.range (q.den + 1)).find? (fun k => 10 ^ k % q.den == 0) with
  | none => simp only [hf]; decide
  | some k =>
    simp only [hf]
    by_cases hk : k = 0
    · rw [if_pos hk]
      intro hcon
      have hdata := congrArg String.data hcon
      rcases List.append_eq_nil.mp hdata with ⟨-, h2⟩
      exact natDigits_ne_nil _ h2
    · rw [if_neg hk]
      intro hcon
      have hdata := congrArg String.data hcon
      rcases List.append_eq_nil.mp hdata with ⟨-, h2⟩
      simp at h2

theorem stringAmount_no_comma (q : ℚ) : ',' ∉ (stringAmount q).data := by
  rw [stringAmount]
  by_cases hq : q = 0
  · rw [if_pos hq]
    decide
  rw [if_neg hq]
  cases hf : (List.range (q.den + 1)).find? (fun k => 10 ^ k % q.den == 0) with
  | none => simp only [hf]; decide
  | some k =>
    simp only [hf]
    have hsgn : ',' ∉ (if q.num < 0 then ['-'] else ([] : List Char)) := by
      by_cases hn : q.num < 0 <;> simp [hn]
    by_cases hk : k = 0
    · rw [if_pos hk]
      intro hmem
      rcases List.mem_append.mp hmem with hc | hc
      · exact hsgn hc
      · exact absurd (natDigits_isDigit _ _ hc) (by decide)
    · rw [if_neg hk]
      intro hmem
      rcases List.mem_append.mp hmem with hc | hc
      · rcases List.mem_append.mp hc with hc2 | hc2
        · exact hsgn hc2
        · exact absurd (natDigits_isDigit _ _ hc2) (by decide)
      · rcases List.mem_cons.mp hc with hc3 | hc3
        · exact absurd hc3 (by decide)
        · have hmod : q.num.natAbs * 10 ^ k / q.den % 10 ^ k < 10 ^ k :=
            Nat.mod_lt _ (Nat.pos_pow_of_pos _ (by omega))
          exact absurd (padDigits_isDigit k _ hmod _ hc3) (by decide)

theorem Validate_fields (t : Transaction) (h : t.Validate = none) :
    t.Amount ≠ 0 ∧ validateDateOnly t.Date = none ∧ t.Memo ≠ "" ∧
      t.OtherAccount ≠ "" ∧ t.ThisAccount ≠ "" := by
  rw [Transaction.Validate] at h
  by_cases h0 : t.Amount = 0
  · rw [if_pos h0] at h
    exact absurd h (by simp)
  rw [if_neg h0] at h
  cases hv : validateDateOnly t.Date with
  | some e =>
    rw [hv] at h
    exact absurd h (by simp)
  | none =>
    simp only [hv] at h
    by_cases hm : t.Memo = ""
    · rw [if_pos hm] at h
      exact absurd h (by simp)
    rw [if_neg hm] at h
    by_cases ho : t.OtherAccount = ""
    · rw [if_pos ho] at h
      exact absurd h (by simp)
    rw [if_neg ho] at h
    by_cases ht : t.ThisAccount = ""
    · rw [if_pos ht] at h
      exact absurd h (by simp)
    exact ⟨h0, rfl, hm, ho, ht⟩

theorem parseAmount_amount_field (fields : List String) (crf : CSVRecordFormat) (q : ℚ)
    (ha : fields.getD crf.AmountI "" = stringAmount q)
    (hp : crf.AmountPuncts = "")
    (hdec : ∃ (z : ℤ) (k : ℕ), q = mkRat z (10 ^ k)) (hq : q ≠ 0) :
    parseAmount fields crf = .ok q := by
  simp only [parseAmount, ha, hp, depunctAmount_empty]
  simp [stringAmount_ne_empty q, parseFloat_stringAmount q hdec, hq]

/-- C1 amended: for a valid transaction whose this-account is not the
`Imbalance` sentinel, whose amount is a decimal rational (as every
binary64 value is), and whose free-text fields contain no comma,
decoding the comma-split of the module CSV record into a fresh empty
transaction succeeds and returns the transaction field for field. -/
theorem C1_roundtrip (t : Transaction)
    (hvalid : t.Validate = none)
    (hthis : t.ThisAccount ≠ DefaultOtherAccount)
    (hdec : ∃ (z : ℤ) (k : ℕ), t.Amount = mkRat z (10 ^ k))
    (hcCode : ',' ∉ t.Code.data) (hcCur : ',' ∉ t.Currency.data)
    (hcMemo : ',' ∉ t.Memo.data) (hcOther : ',' ∉ t.OtherAccount.data)
    (hcThis : ',' ∉ t.ThisAccount.data) :
    ParseCSV emptyTransaction (splitRecord (StringModuleCSV t)) GetModuleCSVFormat =
      (t, none) := by
  obtain ⟨h0, hvd, hm, ho, ht⟩ := Validate_fields t hvalid
  have hfields : splitRecord (StringModuleCSV t) =
      [t.Date, t.ThisAccount, t.OtherAccount, t.Code, t.Memo,
        stringAmount t.Amount, t.Currency] := by
    rw [splitRecord, StringModuleCSV, string_data_append]
    rw [show ("\n" : String).data = ['\n'] from rfl]
    rw [List.dropLast_concat]
    rw [stringsJoin_split _ (by simp) ?hcomma]
    case hcomma =>
      intro p hp
      simp only [List.mem_cons, List.not_mem_nil, or_false] at hp
      rcases hp with rfl | rfl | rfl | rfl | rfl | rfl | rfl
      · exact validateDateOnly_no_comma t.Date hvd
      · exact hcThis
      · exact hcOther
      · exact hcCode
      · exact hcMemo
      · exact stringAmount_no_comma t.Amount
      · exact hcCur
    rfl
  rw [hfields]
  have hamt : parseAmount
      ("" :: [t.Date, t.ThisAccount, t.OtherAccount, t.Code, t.Memo,
        stringAmount t.Amount, t.Currency]) GetModuleCSVFormat = .ok t.Amount :=
    parseAmount_amount_field _ _ t.Amount (by simp [GetModuleCSVFormat]) rfl hdec h0
  have hdate : ParseDate t.Date GetModuleCSVFormat.DateLayout = .ok t.Date :=
    ParseDate_canonical t.Date hvd
  rw [ParseCSV]
  rw [if_neg (by simp [GetModuleCSVFormat])]
  simp only [show GetModuleCSVFormat.DateI = 1 from rfl,
    show GetModuleCSVFormat.CodeI = 4 from rfl,
    show GetModuleCSVFormat.CurrencyI = 7 from rfl,
    show GetModuleCSVFormat.MemoI = 5 from rfl,
    show GetModuleCSVFormat.OtherAccountI = 3 from rfl,
    show GetModuleCSVFormat.ThisAccountI = 2 from rfl,
    List.getD_cons_succ, List.getD_cons_zero]
  simp only [hdate, hamt]
  simp [emptyTransaction, hm, ho, ht, hthis, DefaultOtherAccount]
  exact hthis

theorem C1_roundtrip_witness :
    ParseCSV emptyTransaction
        (splitRecord (StringModuleCSV
          ⟨mkRat 42 1, "", "", "2025-05-02", "pay", "X", "Y"⟩))
        GetModuleCSVFormat =
      (⟨mkRat 42 1, "", "", "2025-05-02", "pay", "X", "Y"⟩, none) :=
  C1_roundtrip ⟨mkRat 42 1, "", "", "2025-05-02", "pay", "X", "Y"⟩
    (by decide) (by decide) ⟨42, 0, by decide⟩
    (by decide) (by decide) (by decide) (by decide) (by decide)
